import Mathlib

/-!
Verification of the los2d diamond line-of-sight engine.

This file shallowly embeds the repository's two source files:

* `src/lib.rs`: the `Coord` value type, the row-major `Map<T>` container
  (named `Map` here as well), and the `MapProvider` collaborator contract.
* `src/diamond.rs`: the `DiamondLos` engine — `apply_ray`, `propagate_from`,
  the clockwise ring sweep, the emission pass and the final reset.

Modelling conventions:

* Rust `i32` arithmetic is modelled with `Int` (no overflow occurs in the
  quantities involved; the source never wraps).
* The engine's scratch grid (`cache: Map<CellData>`, addressed at
  `offset + max_view_range` on each axis) is modelled as a total function
  `Coord → CellData` keyed directly by the offset; the concrete raw index
  computed by `get_data`/`get_data_mut` and the debug bounds assertion of
  `Map::assert_in_bounds` are modelled separately (`scratchIndex`,
  `scratchIndexOk`) so that out-of-window accesses remain observable.
* The effectful provider calls (`mark_as_visible`, `is_blocking`) are logged
  in order in an event list; `bounds()` returns immutable data and is kept as
  a plain field.  Every dereference of a mutable scratch cell
  (`get_data_mut`) is logged in a `writes` list.
-/

/-- 2D coordinate, `Coord(pub i32, pub i32)` from `src/lib.rs`.  The Rust
tuple fields `.0`/`.1` are named `x`/`y`. -/
structure Coord where
  x : Int
  y : Int
deriving DecidableEq

/-- Component-wise addition, `impl Add<Coord> for Coord`. -/
instance : Add Coord := ⟨fun a b => ⟨a.x + b.x, a.y + b.y⟩⟩

/-- Per-offset scratch record, `struct CellData` from `src/diamond.rs`. -/
structure CellData where
  obs : Coord
  err : Coord
  ignore : Bool
  visited : Bool
deriving DecidableEq

/-- `CellData::default()`: all components zero / false. -/
def CellData.default : CellData := ⟨⟨0, 0⟩, ⟨0, 0⟩, false, false⟩

/-- `CellData::is_obstacle`:
`self.err.0 != 0 && self.err.0 <= self.obs.0 || self.err.1 != 0 && self.err.1 <= self.obs.1`. -/
def CellData.is_obstacle (c : CellData) : Bool :=
  (decide (c.err.x ≠ 0) && decide (c.err.x ≤ c.obs.x)) ||
  (decide (c.err.y ≠ 0) && decide (c.err.y ≤ c.obs.y))

/-- `CellData::is_wall`: `self.err == self.obs`. -/
def CellData.is_wall (c : CellData) : Bool := decide (c.err = c.obs)

/-- `CellData::is_visible`:
`self.visited && !self.ignore && (!self.is_obstacle() || self.is_wall())`. -/
def CellData.is_visible (c : CellData) : Bool :=
  c.visited && !c.ignore && (!c.is_obstacle || c.is_wall)

/-- The host collaborator, trait `MapProvider` from `src/lib.rs`.
`bounds()` returns the fixed inclusive rectangle `(min, max)`; the effectful
calls `is_blocking` / `mark_as_visible` are logged by the engine model. -/
structure MapProvider where
  is_blocking : Coord → Bool
  bounds : Coord × Coord

/-- `DiamondLos::is_in_bounds(cell, map)` from `src/diamond.rs`. -/
def is_in_bounds (cell : Coord) (m : MapProvider) : Bool :=
  decide (m.bounds.1.x ≤ cell.x) && decide (cell.x ≤ m.bounds.2.x) &&
  decide (m.bounds.1.y ≤ cell.y) && decide (cell.y ≤ m.bounds.2.y)

/-- A logged provider call: a `mark_as_visible` or an `is_blocking` call. -/
inductive PEvent where
  | mark (c : Coord)
  | query (c : Coord)
deriving DecidableEq

/-- State threaded through one `compute_los` call: the engine's origin, the
scratch cache (keyed by offset), the ordered provider-call log and the list
of offsets handed to `get_data_mut`. -/
structure RunState where
  origin : Coord
  cache : Coord → CellData
  events : List PEvent
  writes : List Coord

/-- The obstruction-inheritance block of `DiamondLos::apply_ray`
(`if input_data.obs != (0, 0) { ... }`, lines 59–85 of `src/diamond.rs`):
updates only `obs` and `err` of the target cell. -/
def applyRayObs (offset input : Coord) (input_data self_data : CellData) : CellData :=
  if input_data.obs ≠ (⟨0, 0⟩ : Coord) then
    if offset.x ≠ input.x then
      -- we move on the X axis
      if input_data.err.x > 0 ∧
          (self_data.obs.x = 0 ∨ (input_data.err.y ≤ 0 ∧ input_data.obs.y > 0)) then
        { self_data with
          obs := input_data.obs
          err := ⟨input_data.err.x - input_data.obs.y, input_data.err.y + input_data.obs.y⟩ }
      else self_data
    else
      -- we moved on the Y axis
      if input_data.err.y > 0 ∧
          (self_data.obs.y = 0 ∨ (input_data.err.x ≤ 0 ∧ input_data.obs.x > 0)) then
        { self_data with
          obs := input_data.obs
          err := ⟨input_data.err.x + input_data.obs.x, input_data.err.y - input_data.obs.x⟩ }
      else self_data
  else self_data

/-- The per-cell part of `DiamondLos::apply_ray` after the bounds filter:
the obstruction inheritance, the `ignore` update, the wall-origin overwrite
and the `visited` mark.  Returns the new cell together with the provider
calls issued (`is_blocking` is short-circuited away when the new `ignore`
flag is set). -/
def applyRayCell (m : MapProvider) (origin offset input : Coord)
    (input_data self_data : CellData) : CellData × List PEvent :=
  let d1 := applyRayObs offset input input_data self_data
  let ign := (!d1.visited || d1.ignore) && input_data.is_obstacle
  let d2 : CellData := { d1 with ignore := ign }
  if ign = false then
    if m.is_blocking (origin + offset) then
      ({ d2 with obs := ⟨|offset.x|, |offset.y|⟩, err := ⟨|offset.x|, |offset.y|⟩,
                 visited := true },
       [PEvent.query (origin + offset)])
    else ({ d2 with visited := true }, [PEvent.query (origin + offset)])
  else ({ d2 with visited := true }, [])

/-- `DiamondLos::apply_ray(offset, input, map)`. -/
def applyRay (m : MapProvider) (st : RunState) (offset input : Coord) : RunState :=
  if is_in_bounds (st.origin + offset) m = false then st else
  let input_data := st.cache input
  let self_data := st.cache offset
  let r := applyRayCell m st.origin offset input input_data self_data
  { st with
    cache := fun c => if c = offset then r.1 else st.cache c
    events := st.events ++ r.2
    writes := st.writes ++ [offset] }

/-- `DiamondLos::propagate_from(offset, map)`. -/
def propagateFrom (m : MapProvider) (st : RunState) (offset : Coord) : RunState :=
  if is_in_bounds (st.origin + offset) m = false then st else
  if (st.cache offset).ignore then st else
  let st1 := if offset.x ≥ 0 then applyRay m st (offset + (⟨1, 0⟩ : Coord)) offset else st
  let st2 := if offset.y ≥ 0 then applyRay m st1 (offset + (⟨0, 1⟩ : Coord)) offset else st1
  let st3 := if offset.x ≤ 0 then applyRay m st2 (offset + (⟨-1, 0⟩ : Coord)) offset else st2
  if offset.y ≤ 0 then applyRay m st3 (offset + (⟨0, -1⟩ : Coord)) offset else st3

/-- The diamond ring at Manhattan distance `d`, in the clockwise order of the
four `while` loops of `compute_los` (east-to-south, south-to-west,
west-to-north, north-to-east). -/
def ringOffsets (d : Nat) : List Coord :=
  ((List.range d).map fun (i : Nat) => ⟨(d : Int) - (i : Int), (i : Int)⟩) ++
  ((List.range d).map fun (i : Nat) => ⟨-(i : Int), (d : Int) - (i : Int)⟩) ++
  ((List.range d).map fun (i : Nat) => ⟨(i : Int) - (d : Int), -(i : Int)⟩) ++
  ((List.range d).map fun (i : Nat) => ⟨(i : Int), (i : Int) - (d : Int)⟩)

/-- The ring-sweep source offsets of `compute_los`:
`for distance in 1..vision_range` visits the rings at distances
`1, …, vision_range − 1` in order. -/
def sweepSources (r : Nat) : List Coord :=
  ((List.range (r - 1)).map fun i => i + 1).flatMap ringOffsets

/-- The scratch state right after the seed step of `compute_los`
(lines 138–146 of `src/diamond.rs`): the initial `mark_as_visible(origin)`
call, the origin cell marked `visited` through `get_data_mut`, and the first
`propagate_from` at offset `(0, 0)`. -/
def seedState (m : MapProvider) (origin : Coord) (cache0 : Coord → CellData) : RunState :=
  let st0 : RunState :=
    { origin := origin, cache := cache0, events := [PEvent.mark origin], writes := [] }
  let st1 : RunState :=
    { st0 with
      cache := fun c =>
        if c = (⟨0, 0⟩ : Coord) then { st0.cache ⟨0, 0⟩ with visited := true }
        else st0.cache c
      writes := st0.writes ++ [(⟨0, 0⟩ : Coord)] }
  propagateFrom m st1 ⟨0, 0⟩

/-- The scratch state at the end of the ring sweep of `compute_los`
(after the seed at the origin and all `propagate_from` calls, before the
emission scan): lines 138–173 of `src/diamond.rs`. -/
def sweepState (m : MapProvider) (origin : Coord) (r : Nat)
    (cache0 : Coord → CellData) : RunState :=
  (sweepSources r).foldl (propagateFrom m) (seedState m origin cache0)

/-- One step of the emission scan (body of the nested `for` loops,
lines 175–186 of `src/diamond.rs`). -/
def emitStep (m : MapProvider) (st : RunState) (offset : Coord) : RunState :=
  let map_coord := offset + st.origin
  if is_in_bounds map_coord m = false then st else
  if (st.cache offset).is_visible then
    { st with events := st.events ++ [PEvent.mark map_coord] }
  else st

/-- The emission window `[-r, r]²`, with `y` as the outer loop, matching
`for y in -(r)..=r { for x in -(r)..=r { ... } }`. -/
def windowOffsets (r : Nat) : List Coord :=
  (List.range (2 * r + 1)).flatMap fun (j : Nat) =>
    (List.range (2 * r + 1)).map fun (i : Nat) => ⟨(i : Int) - (r : Int), (j : Int) - (r : Int)⟩

/-- The emission scan of `compute_los`. -/
def emitVisible (m : MapProvider) (r : Nat) (st : RunState) : RunState :=
  (windowOffsets r).foldl (emitStep m) st

/-- The persistent engine, `struct DiamondLos`.  The scratch grid is keyed by
offset; the raw grid index `(offset + max_view_range)` is modelled by
`scratchIndex` below. -/
structure Engine where
  origin : Coord
  max_view_range : Nat
  cache : Coord → CellData

/-- Result of one `compute_los` call: the engine after the call, the ordered
provider-call log, and the offsets handed to `get_data_mut`. -/
structure ComputeResult where
  engine : Engine
  events : List PEvent
  writes : List Coord

/-- `DiamondLos::compute_los(origin, vision_range, map)`: capacity check,
seed, ring sweep, emission, reset. -/
def computeLos (e : Engine) (origin : Coord) (vision_range : Nat)
    (m : MapProvider) : ComputeResult :=
  let w := if vision_range > e.max_view_range then vision_range else e.max_view_range
  let cache0 :=
    if vision_range > e.max_view_range then (fun _ => CellData.default) else e.cache
  let st := sweepState m origin vision_range cache0
  let stE := emitVisible m vision_range st
  { engine := { origin := origin, max_view_range := w, cache := fun _ => CellData.default }
    events := stE.events
    writes := stE.writes }

/-- The `mark_as_visible` calls of a compute run, in order. -/
def marksOf (l : List PEvent) : List Coord :=
  l.filterMap fun e => match e with | PEvent.mark c => some c | PEvent.query _ => none

/-- The visibility set reported by a `compute_los` call, in call order. -/
def losMarks (r : ComputeResult) : List Coord := marksOf r.events

/-- Raw scratch-grid index used by `get_data` / `get_data_mut`:
`(offset.0 + max_view_range, offset.1 + max_view_range)`. -/
def scratchIndex (w : Nat) (offset : Coord) : Coord := ⟨offset.x + w, offset.y + w⟩

/-- Side length of the scratch grid: `2 * max_view_range + 1`. -/
def scratchSize (w : Nat) : Nat := 2 * w + 1

/-- `Map::assert_in_bounds` for the square `(2w+1)×(2w+1)` scratch grid:
`index.1 >= 0 && index.1 < height && index.0 >= 0 && index.0 < len / height`. -/
def scratchIndexOk (w : Nat) (idx : Coord) : Bool :=
  decide (0 ≤ idx.y) && decide (idx.y.toNat < scratchSize w) &&
  decide (0 ≤ idx.x) &&
  decide (idx.x.toNat < scratchSize w * scratchSize w / scratchSize w)

/-- Manhattan distance of an offset from the origin. -/
def manhattan (c : Coord) : Nat := c.x.natAbs + c.y.natAbs

/-- The row-major vector map, `struct Map<T>` from `src/lib.rs`. -/
structure Map (T : Type) where
  height : Nat
  inner : List T

/-- `Map::new((width, height), initial_value)`. -/
def Map.new {T : Type} (size : Nat × Nat) (v : T) : Map T :=
  ⟨size.2, List.replicate (size.1 * size.2) v⟩

/-- The slot computed by `Map`'s `Index` implementation:
`index.1 as usize * self.height + index.0 as usize`. -/
def Map.slot {T : Type} (g : Map T) (c : Coord) : Nat :=
  c.y.toNat * g.height + c.x.toNat

/-- The condition of `Map::assert_in_bounds`:
`index.1 >= 0 && index.1 < height && index.0 >= 0 && index.0 < len / height`. -/
def Map.inBoundsIdx {T : Type} (g : Map T) (c : Coord) : Prop :=
  0 ≤ c.y ∧ c.y.toNat < g.height ∧ 0 ≤ c.x ∧ c.x.toNat < g.inner.length / g.height

instance {T : Type} (g : Map T) (c : Coord) : Decidable (g.inBoundsIdx c) := by
  unfold Map.inBoundsIdx; infer_instance

/-- A scratch cache with every cell in the default state. -/
def defaultCache : Coord → CellData := fun _ => CellData.default

/-- A freshly constructed engine, `DiamondLos::new(max_view_range)`. -/
def freshEngine (w : Nat) : Engine := ⟨⟨0, 0⟩, w, defaultCache⟩

/-- Host map with a single blocking cell and inclusive bounds `(0,0)..mx`. -/
def wallAt (w mx : Coord) : MapProvider := ⟨fun c => decide (c = w), (⟨0, 0⟩, mx)⟩

/-- Obstacle-free host map with inclusive bounds `(0,0)..mx`. -/
def openMap (mx : Coord) : MapProvider := ⟨fun _ => false, (⟨0, 0⟩, mx)⟩

/-! ## Specification-side definitions

The following definitions transcribe the spec's wording (for the refinement
claims C1 and C2) so they can be compared with the definitions transcribed
from the source above. -/

/-- Spec §4.2 step 7: `obstacleShadow =
(errorTerm.x≠0 ∧ errorTerm.x≤obstruction.x) ∨ (errorTerm.y≠0 ∧ errorTerm.y≤obstruction.y)`. -/
def specObstacleShadow (c : CellData) : Prop :=
  (c.err.x ≠ 0 ∧ c.err.x ≤ c.obs.x) ∨ (c.err.y ≠ 0 ∧ c.err.y ≤ c.obs.y)

/-- Spec §4.2 step 7: `isWallOrigin = (errorTerm == obstruction)`. -/
def specIsWallOrigin (c : CellData) : Prop := c.err = c.obs

/-- Spec §4.2 step 7: `visible = visited ∧ ¬ignored ∧ (¬obstacleShadow ∨ isWallOrigin)`. -/
def specVisible (c : CellData) : Prop :=
  c.visited = true ∧ c.ignore = false ∧ (¬ specObstacleShadow c ∨ specIsWallOrigin c)

instance (c : CellData) : Decidable (specObstacleShadow c) := by
  unfold specObstacleShadow; infer_instance

instance (c : CellData) : Decidable (specIsWallOrigin c) := by
  unfold specIsWallOrigin; infer_instance

instance (c : CellData) : Decidable (specVisible c) := by
  unfold specVisible; infer_instance

/-- The inheritance condition the code implements on an X-axis step
(line 63–64 of `src/diamond.rs`): the error component on the movement axis
is positive, and the target has no prior obstruction on the movement axis
or the source's orthogonal error is non-positive while its orthogonal
obstruction is positive. -/
def inheritCondX (input_data self_data : CellData) : Prop :=
  input_data.err.x > 0 ∧
    (self_data.obs.x = 0 ∨ (input_data.err.y ≤ 0 ∧ input_data.obs.y > 0))

/-- The inheritance condition the code implements on a Y-axis step
(line 75–76 of `src/diamond.rs`). -/
def inheritCondY (input_data self_data : CellData) : Prop :=
  input_data.err.y > 0 ∧
    (self_data.obs.y = 0 ∨ (input_data.err.x ≤ 0 ∧ input_data.obs.x > 0))

/-- The condition claimed by the spec for an X-axis step: identical to
`inheritCondX` except that the target's no-prior-obstruction check is made
on the orthogonal (Y) axis instead of the movement (X) axis. -/
def claimedCondX (input_data self_data : CellData) : Prop :=
  input_data.err.x > 0 ∧
    (self_data.obs.y = 0 ∨ (input_data.err.y ≤ 0 ∧ input_data.obs.y > 0))

instance (i s : CellData) : Decidable (inheritCondX i s) := by
  unfold inheritCondX; infer_instance

instance (i s : CellData) : Decidable (inheritCondY i s) := by
  unfold inheritCondY; infer_instance

instance (i s : CellData) : Decidable (claimedCondX i s) := by
  unfold claimedCondX; infer_instance

/-- Sweep invariant backing wall self-visibility: every visited, non-ignored
scratch cell whose underlying map cell the host reports as blocking is a
wall origin (`obstruction = (|dx|,|dy|)` and `errorTerm = obstruction`). -/
def wallInv (m : MapProvider) (st : RunState) : Prop :=
  ∀ c : Coord, (st.cache c).visited = true → (st.cache c).ignore = false →
    m.is_blocking (st.origin + c) = true →
    (st.cache c).obs = ⟨|c.x|, |c.y|⟩ ∧ (st.cache c).err = (st.cache c).obs

/-! ## Helper lemmas -/

theorem Coord.add_def (a b : Coord) : a + b = ⟨a.x + b.x, a.y + b.y⟩ := rfl

theorem Coord.eq_iff (a b : Coord) : a = b ↔ a.x = b.x ∧ a.y = b.y := by
  cases a; cases b; simp

/-- A visited, non-ignored cell whose error term equals its obstruction is
classified visible. -/
theorem visible_of_wall (c : CellData) (hv : c.visited = true) (hi : c.ignore = false)
    (hw : c.err = c.obs) : c.is_visible = true := by
  simp [CellData.is_visible, CellData.is_wall, hv, hi, hw]

/-- The obstruction-inheritance block never touches the `ignore` flag. -/
theorem applyRayObs_ignore (offset input : Coord) (i s : CellData) :
    (applyRayObs offset input i s).ignore = s.ignore := by
  unfold applyRayObs
  repeat' split
  all_goals rfl

/-- The obstruction-inheritance block never touches the `visited` flag. -/
theorem applyRayObs_visited (offset input : Coord) (i s : CellData) :
    (applyRayObs offset input i s).visited = s.visited := by
  unfold applyRayObs
  repeat' split
  all_goals rfl

/-! ## C1 — visibility classification -/

/-- C1: a scratch cell is classified visible exactly when
`visited ∧ ¬ignored ∧ (¬obstacleShadow ∨ isWallOrigin)`; in particular a
visited, non-ignored cell whose `errorTerm` equals its `obstruction` (an
originating obstacle tile) is always counted visible. -/
theorem C1_visibility_classification (c : CellData) :
    (c.is_visible = true ↔ specVisible c) ∧
    (c.visited = true → c.ignore = false → c.err = c.obs → c.is_visible = true) := by
  constructor
  · obtain ⟨o, e, ig, vis⟩ := c
    cases ig <;> cases vis <;>
      simp [CellData.is_visible, CellData.is_obstacle, CellData.is_wall, specVisible,
        specObstacleShadow, specIsWallOrigin, Coord.eq_iff] <;>
      omega
  · exact visible_of_wall c

/-- Witness for C1 at a concrete wall-origin cell. -/
theorem C1_witness :
    CellData.is_visible ⟨⟨1, 1⟩, ⟨1, 1⟩, false, true⟩ = true :=
  (C1_visibility_classification ⟨⟨1, 1⟩, ⟨1, 1⟩, false, true⟩).2 rfl rfl rfl

/-! ## C2 — obstruction inheritance condition in apply-ray -/

/-- C2 counterexample: on an X-axis step with `source.obstruction = (2,1)`,
`source.errorTerm = (1,1)` and `target.obstruction = (1,0)`, the spec's
condition (error on the movement axis positive, and no prior target
obstruction on the orthogonal axis) holds, yet the code does not inherit:
the code tests the target's obstruction on the movement axis
(`self_data.obs.0 == 0`), which fails here. -/
theorem C2_counterexample :
    claimedCondX ⟨⟨2, 1⟩, ⟨1, 1⟩, false, true⟩ ⟨⟨1, 0⟩, ⟨0, 0⟩, false, false⟩ ∧
    (⟨1, 0⟩ : Coord).x ≠ (⟨0, 0⟩ : Coord).x ∧
    (⟨⟨2, 1⟩, ⟨1, 1⟩, false, true⟩ : CellData).obs ≠ (⟨0, 0⟩ : Coord) ∧
    (applyRayObs ⟨1, 0⟩ ⟨0, 0⟩ ⟨⟨2, 1⟩, ⟨1, 1⟩, false, true⟩
        ⟨⟨1, 0⟩, ⟨0, 0⟩, false, false⟩).obs
      ≠ (⟨⟨2, 1⟩, ⟨1, 1⟩, false, true⟩ : CellData).obs := by
  decide

/-- C2 (amended): whenever the source's obstruction is not `(0,0)`, the
target inherits the source's obstruction and the adjusted error term iff the
source's error component on the movement axis is positive AND (the target
has no prior obstruction on the *movement* axis, OR the source's orthogonal
error is non-positive while its orthogonal obstruction is positive); for
both X-axis and Y-axis steps. -/
theorem C2_inheritance_condition (offset input : Coord) (input_data self_data : CellData)
    (h : input_data.obs ≠ (⟨0, 0⟩ : Coord)) :
    (offset.x ≠ input.x →
      applyRayObs offset input input_data self_data =
        if inheritCondX input_data self_data then
          { self_data with
            obs := input_data.obs
            err := ⟨input_data.err.x - input_data.obs.y,
                    input_data.err.y + input_data.obs.y⟩ }
        else self_data) ∧
    (offset.x = input.x →
      applyRayObs offset input input_data self_data =
        if inheritCondY input_data self_data then
          { self_data with
            obs := input_data.obs
            err := ⟨input_data.err.x + input_data.obs.x,
                    input_data.err.y - input_data.obs.x⟩ }
        else self_data) := by
  unfold applyRayObs inheritCondX inheritCondY
  constructor <;> intro hx <;> simp [h, hx]

/-- Witness for the amended C2 at a concrete X-axis step. -/
theorem C2_witness :
    (applyRayObs ⟨1, 0⟩ ⟨0, 0⟩ ⟨⟨1, 1⟩, ⟨1, 0⟩, false, true⟩ CellData.default).obs
      = ⟨1, 1⟩ := by
  have h := (C2_inheritance_condition ⟨1, 0⟩ ⟨0, 0⟩ ⟨⟨1, 1⟩, ⟨1, 0⟩, false, true⟩
    CellData.default (by decide)).1 (by decide)
  rw [h]; decide

/-! ## C9 — grid indexing -/

/-- C9 counterexample: in a 3×2 (width×height) grid, the in-bounds
coordinates `(2,0)` and `(0,1)` are distinct yet map to the same slot,
because the index computation uses the height (2) as row stride; and `(0,1)`
does not map to the claimed row-major slot `1·width + 0 = 3`. -/
theorem C9_counterexample :
    (Map.new (3, 2) false).inBoundsIdx ⟨2, 0⟩ ∧
    (Map.new (3, 2) false).inBoundsIdx ⟨0, 1⟩ ∧
    (⟨2, 0⟩ : Coord) ≠ ⟨0, 1⟩ ∧
    (Map.new (3, 2) false).slot ⟨2, 0⟩ = (Map.new (3, 2) false).slot ⟨0, 1⟩ ∧
    (Map.new (3, 2) false).slot ⟨0, 1⟩ ≠ 1 * 3 + 0 := by
  decide

/-- C9 (amended): indexing maps `(x,y)` to the slot `y·height + x`; on the
square grids the engine actually allocates (width = height), distinct
in-bounds coordinates still map to distinct slots. -/
theorem C9_square_injective {T : Type} (w : Nat) (v : T) (c c' : Coord)
    (hc : (Map.new (w, w) v).inBoundsIdx c) (hc' : (Map.new (w, w) v).inBoundsIdx c')
    (h : (Map.new (w, w) v).slot c = (Map.new (w, w) v).slot c') :
    c = c' ∧ (Map.new (w, w) v).slot c = c.y.toNat * w + c.x.toNat := by
  obtain ⟨hy0, hy, hx0, hx⟩ := hc
  obtain ⟨hy0', hy', hx0', hx'⟩ := hc'
  have hw : 0 < w := Nat.pos_of_ne_zero (by rintro rfl; simp [Map.new] at hy)
  have hlen : (Map.new (w, w) v).inner.length / (Map.new (w, w) v).height = w := by
    simp [Map.new, Nat.mul_div_cancel _ hw]
  rw [hlen] at hx hx'
  have hslot : c.y.toNat * w + c.x.toNat = c'.y.toNat * w + c'.x.toNat := h
  have hmod : ∀ a b : Nat, (a * w + b) % w = b % w := fun a b => by
    rw [Nat.mul_comm]; exact Nat.mul_add_mod _ _ _
  have hxx : c.x.toNat = c'.x.toNat := by
    have h1 : (c.y.toNat * w + c.x.toNat) % w = c.x.toNat % w := hmod _ _
    have h2 : (c'.y.toNat * w + c'.x.toNat) % w = c'.x.toNat % w := hmod _ _
    rw [hslot, h2, Nat.mod_eq_of_lt hx, Nat.mod_eq_of_lt hx'] at h1
    exact h1.symm
  have hyy : c.y.toNat = c'.y.toNat := by
    have := hslot
    rw [hxx] at this
    exact Nat.eq_of_mul_eq_mul_right hw (Nat.add_right_cancel this)
  refine ⟨?_, rfl⟩
  rw [Coord.eq_iff]
  omega

/-- Witness for the amended C9 on a concrete 2×2 grid. -/
theorem C9_witness :
    ((⟨1, 1⟩ : Coord) = ⟨1, 1⟩) ∧
    (Map.new (2, 2) false).slot ⟨1, 1⟩ = (⟨1, 1⟩ : Coord).y.toNat * 2 +
      (⟨1, 1⟩ : Coord).x.toNat :=
  C9_square_injective 2 false ⟨1, 1⟩ ⟨1, 1⟩ (by decide) (by decide) rfl

/-! ## C3 — scratch-window safety -/

/-- C3 (code bug): with a freshly constructed engine of watermark 0 and a
`compute` call of radius 0 from an in-bounds origin `(0,0)` on a 2×1 host,
the seed step propagates to the offset-`(1,0)` neighbour, which passes the
host-bounds filter and is dereferenced through `get_data_mut`; its raw
scratch index `(1,0)` violates `Map::assert_in_bounds` for the 1×1 scratch
grid, so the out-of-bounds scratch assertion fires in production conditions,
contradicting the claim. -/
theorem C3_scratch_out_of_bounds :
    is_in_bounds ⟨0, 0⟩ ⟨fun _ => false, (⟨0, 0⟩, ⟨1, 0⟩)⟩ = true ∧
    (⟨1, 0⟩ : Coord) ∈ (computeLos ⟨⟨0, 0⟩, 0, defaultCache⟩ ⟨0, 0⟩ 0
      ⟨fun _ => false, (⟨0, 0⟩, ⟨1, 0⟩)⟩).writes ∧
    scratchIndexOk 0 (scratchIndex 0 ⟨1, 0⟩) = false := by
  decide

/-! ## C4 — persistence of the ignored flag -/

/-- C4 counterexample: origin `(0,0)` on a 3×3 host with a wall at `(1,0)`.
In the actual sweep order of a radius-3 compute call, the first two ring
sources are `(1,0)` then `(0,1)`.  After the ray from the wall source
`(1,0)`, the cell at offset `(1,1)` has `ignored = true`; after the very
next sweep step, whose ray into `(1,1)` comes from the non-shadow source
`(0,1)`, the flag is back to `false` — it does not remain set for the rest
of the sweep. -/
theorem C4_counterexample :
    (sweepSources 3).take 2 = [⟨1, 0⟩, ⟨0, 1⟩] ∧
    ((((sweepSources 3).take 1).foldl
        (propagateFrom (wallAt ⟨1, 0⟩ ⟨2, 2⟩))
        (seedState (wallAt ⟨1, 0⟩ ⟨2, 2⟩) ⟨0, 0⟩ defaultCache)).cache ⟨1, 1⟩).ignore
      = true ∧
    ((((sweepSources 3).take 2).foldl
        (propagateFrom (wallAt ⟨1, 0⟩ ⟨2, 2⟩))
        (seedState (wallAt ⟨1, 0⟩ ⟨2, 2⟩) ⟨0, 0⟩ defaultCache)).cache ⟨1, 1⟩).ignore
      = false := by
  decide

/-- C4 (amended): after an apply-ray step the target's `ignored` flag equals
`(previously unvisited ∨ previously ignored) ∧ source is an obstacle-shadow
cell`; consequently an already-ignored cell stays ignored under every later
apply-ray step whose source is an obstacle-shadow cell (a later ray from a
non-shadow source clears the flag instead). -/
theorem C4_ignore_persists_under_shadow_sources (m : MapProvider) (st : RunState)
    (offset input : Coord)
    (hi : (st.cache offset).ignore = true)
    (ho : (st.cache input).is_obstacle = true) :
    ((applyRay m st offset input).cache offset).ignore = true := by
  unfold applyRay
  split
  · exact hi
  · have key : ((applyRayCell m st.origin offset input (st.cache input)
        (st.cache offset)).1).ignore = true := by
      unfold applyRayCell
      simp only [applyRayObs_ignore, applyRayObs_visited, hi, ho, Bool.or_true,
        Bool.true_and, Bool.and_true]
      simp
    simpa using key

/-- Witness for the amended C4: a concrete ignored target and obstacle-shadow
source. -/
theorem C4_witness :
    ((applyRay (openMap ⟨4, 4⟩)
        ⟨⟨0, 0⟩,
         fun c =>
           if c = ⟨1, 0⟩ then ⟨⟨1, 0⟩, ⟨1, 0⟩, false, true⟩
           else if c = ⟨1, 1⟩ then ⟨⟨0, 0⟩, ⟨0, 0⟩, true, true⟩
           else CellData.default,
         [], []⟩
        ⟨1, 1⟩ ⟨1, 0⟩).cache ⟨1, 1⟩).ignore = true :=
  C4_ignore_persists_under_shadow_sources _ _ _ _ (by decide) (by decide)

/-! ## C5 — sweep distances -/

set_option maxRecDepth 8000 in
/-- C5 counterexample: a radius-2 compute call from origin `(2,2)` on an
obstacle-free 5×5 host dereferences (writes) the scratch cell at offset
`(2,0)` — Manhattan distance exactly 2, the radius — while processing the
ring-1 source `(1,0)`. -/
theorem C5_counterexample :
    (⟨2, 0⟩ : Coord) ∈ (computeLos (freshEngine 2) ⟨2, 2⟩ 2 (openMap ⟨4, 4⟩)).writes ∧
    manhattan ⟨2, 0⟩ = 2 := by
  decide

/-! ## Infrastructure: state components preserved by the sweep -/

theorem applyRay_origin (m : MapProvider) (st : RunState) (offset input : Coord) :
    (applyRay m st offset input).origin = st.origin := by
  unfold applyRay
  split
  all_goals rfl

theorem origin_ite (m : MapProvider) (c : Prop) [Decidable c] (st : RunState)
    (o i : Coord) : (if c then applyRay m st o i else st).origin = st.origin := by
  split
  · exact applyRay_origin m st o i
  · rfl

theorem propagateFrom_origin (m : MapProvider) (st : RunState) (offset : Coord) :
    (propagateFrom m st offset).origin = st.origin := by
  unfold propagateFrom
  split
  · rfl
  split
  · rfl
  simp only [origin_ite]

theorem foldl_propagateFrom_origin (m : MapProvider) (l : List Coord) (st : RunState) :
    (l.foldl (propagateFrom m) st).origin = st.origin := by
  induction l generalizing st with
  | nil => rfl
  | cons a t ih => rw [List.foldl_cons, ih, propagateFrom_origin]

theorem seedState_origin (m : MapProvider) (o : Coord) (c0 : Coord → CellData) :
    (seedState m o c0).origin = o := by
  simp only [seedState]
  rw [propagateFrom_origin]

theorem sweepState_origin (m : MapProvider) (o : Coord) (r : Nat) (c0 : Coord → CellData) :
    (sweepState m o r c0).origin = o := by
  unfold sweepState
  rw [foldl_propagateFrom_origin, seedState_origin]

theorem emitStep_writes (m : MapProvider) (st : RunState) (c : Coord) :
    (emitStep m st c).writes = st.writes := by
  unfold emitStep
  dsimp only
  repeat' split
  all_goals rfl

theorem emitStep_cache (m : MapProvider) (st : RunState) (c : Coord) :
    (emitStep m st c).cache = st.cache := by
  unfold emitStep
  dsimp only
  repeat' split
  all_goals rfl

theorem emitStep_origin (m : MapProvider) (st : RunState) (c : Coord) :
    (emitStep m st c).origin = st.origin := by
  unfold emitStep
  dsimp only
  repeat' split
  all_goals rfl

theorem foldl_emitStep_writes (m : MapProvider) (l : List Coord) (st : RunState) :
    (l.foldl (emitStep m) st).writes = st.writes := by
  induction l generalizing st with
  | nil => rfl
  | cons a t ih => rw [List.foldl_cons, ih, emitStep_writes]

theorem emitVisible_writes (m : MapProvider) (r : Nat) (st : RunState) :
    (emitVisible m r st).writes = st.writes := by
  unfold emitVisible
  exact foldl_emitStep_writes m _ st

/-! ## Infrastructure: Manhattan distances of rings and writes -/

theorem manhattan_add_le (a b : Coord) :
    manhattan (a + b) ≤ manhattan a + manhattan b := by
  simp only [manhattan, Coord.add_def]
  have hx := Int.natAbs_add_le a.x b.x
  have hy := Int.natAbs_add_le a.y b.y
  omega

theorem mem_ringOffsets_manhattan (d : Nat) (c : Coord) (h : c ∈ ringOffsets d) :
    manhattan c = d := by
  simp only [ringOffsets, List.mem_append, List.mem_map, List.mem_range] at h
  rcases h with ((⟨i, hi, rfl⟩ | ⟨i, hi, rfl⟩) | ⟨i, hi, rfl⟩) | ⟨i, hi, rfl⟩ <;>
    simp only [manhattan] <;> omega

theorem mem_sweepSources (r : Nat) (s : Coord) (h : s ∈ sweepSources r) :
    1 ≤ manhattan s ∧ manhattan s + 1 ≤ r := by
  simp only [sweepSources, List.mem_flatMap, List.mem_map, List.mem_range] at h
  obtain ⟨d, ⟨i, hi, rfl⟩, hs⟩ := h
  have := mem_ringOffsets_manhattan _ _ hs
  omega

theorem applyRay_writes_bound (m : MapProvider) (st : RunState) (offset input : Coord)
    (B : Nat) (h : ∀ t ∈ st.writes, manhattan t ≤ B) (ho : manhattan offset ≤ B) :
    ∀ t ∈ (applyRay m st offset input).writes, manhattan t ≤ B := by
  unfold applyRay
  split
  · exact h
  · intro t ht
    simp only [List.mem_append, List.mem_singleton] at ht
    rcases ht with ht | rfl
    · exact h t ht
    · exact ho

theorem cond_applyRay_writes_bound (m : MapProvider) (c : Prop) [Decidable c]
    (st : RunState) (o i : Coord) (B : Nat)
    (h : ∀ t ∈ st.writes, manhattan t ≤ B) (ho : manhattan o ≤ B) :
    ∀ t ∈ (if c then applyRay m st o i else st).writes, manhattan t ≤ B := by
  split
  · exact applyRay_writes_bound m st o i B h ho
  · exact h

theorem propagateFrom_writes_bound (m : MapProvider) (st : RunState) (s : Coord)
    (B : Nat) (h : ∀ t ∈ st.writes, manhattan t ≤ B) (hs : manhattan s + 1 ≤ B) :
    ∀ t ∈ (propagateFrom m st s).writes, manhattan t ≤ B := by
  have hstep : ∀ u : Coord, manhattan u = 1 → manhattan (s + u) ≤ B := by
    intro u hu
    have := manhattan_add_le s u
    omega
  unfold propagateFrom
  split
  · exact h
  split
  · exact h
  exact cond_applyRay_writes_bound m _ _ _ _ B
    (cond_applyRay_writes_bound m _ _ _ _ B
      (cond_applyRay_writes_bound m _ _ _ _ B
        (cond_applyRay_writes_bound m _ _ _ _ B h (hstep _ rfl))
        (hstep _ rfl))
      (hstep _ rfl))
    (hstep _ rfl)

theorem foldl_writes_bound (m : MapProvider) (l : List Coord) (st : RunState) (B : Nat)
    (h : ∀ t ∈ st.writes, manhattan t ≤ B) (hl : ∀ s ∈ l, manhattan s + 1 ≤ B) :
    ∀ t ∈ (l.foldl (propagateFrom m) st).writes, manhattan t ≤ B := by
  induction l generalizing st with
  | nil => exact h
  | cons a tl ih =>
      rw [List.foldl_cons]
      exact ih (propagateFrom m st a)
        (propagateFrom_writes_bound m st a B h (hl a (List.mem_cons_self a tl)))
        (fun s hs => hl s (List.mem_cons_of_mem a hs))

theorem seedState_writes_bound (m : MapProvider) (o : Coord) (c0 : Coord → CellData)
    (B : Nat) (hB : 1 ≤ B) :
    ∀ t ∈ (seedState m o c0).writes, manhattan t ≤ B := by
  simp only [seedState]
  apply propagateFrom_writes_bound
  · intro t ht
    simp only [List.nil_append, List.mem_singleton] at ht
    subst ht
    simp [manhattan]
  · simpa [manhattan] using hB

/-- Projection used below: a compute call's scratch writes are those of the
emission scan applied to the sweep state (the emission scan itself performs
no mutable scratch dereferences). -/
theorem computeLos_writes (e : Engine) (o : Coord) (r : Nat) (m : MapProvider) :
    (computeLos e o r m).writes =
      (emitVisible m r (sweepState m o r
        (if r > e.max_view_range then (fun _ => CellData.default) else e.cache))).writes :=
  rfl

/-- C5 (amended): propagation originates only from the origin seed and from
ring offsets at Manhattan distance `1 .. r−1`; every scratch cell the sweep
dereferences through `get_data_mut` lies at Manhattan distance at most
`max r 1` — in particular cells at distance exactly `r` can be written (as
the counterexample shows) but nothing beyond `max r 1` ever is. -/
theorem C5_sweep_distances (e : Engine) (o : Coord) (r : Nat) (m : MapProvider) :
    (∀ s ∈ sweepSources r, 1 ≤ manhattan s ∧ manhattan s + 1 ≤ r) ∧
    (∀ t ∈ (computeLos e o r m).writes, manhattan t ≤ max r 1) := by
  refine ⟨fun s hs => mem_sweepSources r s hs, ?_⟩
  rw [computeLos_writes, emitVisible_writes]
  unfold sweepState
  apply foldl_writes_bound
  · apply seedState_writes_bound
    omega
  · intro s hs
    have := mem_sweepSources r s hs
    omega

set_option maxRecDepth 8000 in
/-- Witness for the amended C5 on the radius-2 run used by the
counterexample. -/
theorem C5_witness :
    (1 ≤ manhattan ⟨1, 0⟩ ∧ manhattan ⟨1, 0⟩ + 1 ≤ 2) ∧ manhattan ⟨0, 0⟩ ≤ max 2 1 := by
  refine ⟨(C5_sweep_distances (freshEngine 2) ⟨2, 2⟩ 2 (openMap ⟨4, 4⟩)).1 ⟨1, 0⟩
    (by decide), (C5_sweep_distances (freshEngine 2) ⟨2, 2⟩ 2 (openMap ⟨4, 4⟩)).2 ⟨0, 0⟩
    (by decide)⟩

/-! ## Infrastructure: the provider-call log -/

theorem marksOf_append (a b : List PEvent) :
    marksOf (a ++ b) = marksOf a ++ marksOf b :=
  List.filterMap_append a b _

/-- The provider calls issued by the per-cell step of apply-ray contain no
`mark_as_visible` call. -/
theorem applyRayCell_no_marks (m : MapProvider) (origin offset input : Coord)
    (input_data self_data : CellData) :
    marksOf (applyRayCell m origin offset input input_data self_data).2 = [] := by
  unfold applyRayCell
  dsimp only
  repeat' split
  all_goals rfl

theorem applyRay_events (m : MapProvider) (st : RunState) (offset input : Coord) :
    ∃ t, (applyRay m st offset input).events = st.events ++ t ∧ marksOf t = [] := by
  unfold applyRay
  split
  · exact ⟨[], (List.append_nil _).symm, rfl⟩
  · exact ⟨_, rfl, applyRayCell_no_marks m st.origin offset input _ _⟩

theorem cond_applyRay_events (m : MapProvider) (c : Prop) [Decidable c]
    (st : RunState) (o i : Coord) :
    ∃ t, (if c then applyRay m st o i else st).events = st.events ++ t ∧
      marksOf t = [] := by
  split
  · exact applyRay_events m st o i
  · exact ⟨[], (List.append_nil _).symm, rfl⟩

theorem events_ext_trans {a b c : RunState}
    (h1 : ∃ t, b.events = a.events ++ t ∧ marksOf t = [])
    (h2 : ∃ t, c.events = b.events ++ t ∧ marksOf t = []) :
    ∃ t, c.events = a.events ++ t ∧ marksOf t = [] := by
  obtain ⟨t1, e1, m1⟩ := h1
  obtain ⟨t2, e2, m2⟩ := h2
  refine ⟨t1 ++ t2, ?_, ?_⟩
  · rw [e2, e1, List.append_assoc]
  · rw [marksOf_append, m1, m2]
    rfl

theorem propagateFrom_events (m : MapProvider) (st : RunState) (s : Coord) :
    ∃ t, (propagateFrom m st s).events = st.events ++ t ∧ marksOf t = [] := by
  unfold propagateFrom
  split
  · exact ⟨[], (List.append_nil _).symm, rfl⟩
  split
  · exact ⟨[], (List.append_nil _).symm, rfl⟩
  exact events_ext_trans
    (events_ext_trans
      (events_ext_trans (cond_applyRay_events m _ _ _ _) (cond_applyRay_events m _ _ _ _))
      (cond_applyRay_events m _ _ _ _))
    (cond_applyRay_events m _ _ _ _)

theorem foldl_propagateFrom_events (m : MapProvider) (l : List Coord) (st : RunState) :
    ∃ t, (l.foldl (propagateFrom m) st).events = st.events ++ t ∧ marksOf t = [] := by
  induction l generalizing st with
  | nil => exact ⟨[], (List.append_nil _).symm, rfl⟩
  | cons a tl ih =>
      rw [List.foldl_cons]
      exact events_ext_trans (propagateFrom_events m st a) (ih (propagateFrom m st a))

theorem sweepState_events (m : MapProvider) (o : Coord) (r : Nat)
    (c0 : Coord → CellData) :
    ∃ t, (sweepState m o r c0).events = [PEvent.mark o] ++ t ∧ marksOf t = [] := by
  unfold sweepState
  exact events_ext_trans (propagateFrom_events m _ ⟨0, 0⟩)
    (foldl_propagateFrom_events m (sweepSources r) (seedState m o c0))

theorem emitStep_events (m : MapProvider) (st : RunState) (c : Coord) :
    ∃ t, (emitStep m st c).events = st.events ++ t ∧
      ∀ x ∈ marksOf t, is_in_bounds x m = true := by
  unfold emitStep
  dsimp only
  split
  · exact ⟨[], (List.append_nil _).symm, by intro x hx; cases hx⟩
  · split
    · refine ⟨[PEvent.mark (c + st.origin)], rfl, ?_⟩
      intro x hx
      simp only [marksOf, List.filterMap_cons, List.filterMap_nil] at hx
      simp only [List.mem_singleton] at hx
      subst hx
      rename_i hb _
      simpa using hb
    · exact ⟨[], (List.append_nil _).symm, by intro x hx; cases hx⟩

theorem foldl_emitStep_events (m : MapProvider) (l : List Coord) (st : RunState) :
    ∃ t, (l.foldl (emitStep m) st).events = st.events ++ t ∧
      ∀ x ∈ marksOf t, is_in_bounds x m = true := by
  induction l generalizing st with
  | nil => exact ⟨[], (List.append_nil _).symm, by intro x hx; cases hx⟩
  | cons a tl ih =>
      rw [List.foldl_cons]
      obtain ⟨t1, e1, b1⟩ := emitStep_events m st a
      obtain ⟨t2, e2, b2⟩ := ih (emitStep m st a)
      refine ⟨t1 ++ t2, ?_, ?_⟩
      · rw [e2, e1, List.append_assoc]
      · intro x hx
        rw [marksOf_append] at hx
        rcases List.mem_append.mp hx with h | h
        exacts [b1 x h, b2 x h]

/-- A compute call's provider-call log is the emission scan's log over the
sweep state; definitional projection of `computeLos`. -/
theorem computeLos_events (e : Engine) (o : Coord) (r : Nat) (m : MapProvider) :
    (computeLos e o r m).events =
      (emitVisible m r (sweepState m o r
        (if r > e.max_view_range then (fun _ => CellData.default) else e.cache))).events :=
  rfl

/-- On an engine whose scratch cache is in the default state (as after any
compute call, or on a fresh engine), the provider-call log depends only on
the origin, radius and provider. -/
theorem computeLos_events_default (e : Engine) (o : Coord) (r : Nat) (m : MapProvider)
    (h : e.cache = defaultCache) :
    (computeLos e o r m).events =
      (emitVisible m r (sweepState m o r defaultCache)).events := by
  rw [computeLos_events, h]
  have hd : defaultCache = (fun _ => CellData.default) := rfl
  rw [hd, ite_self]

/-! ## C6 — the origin mark comes first -/

/-- C6: every compute call reports the origin visible to the provider
unconditionally: the very first logged provider call — before any
`is_blocking` query or other `mark_as_visible` call — is
`mark_as_visible(origin)`, independent of radius, of the engine state, and
of whether the origin cell is blocking.  (`bounds()` is modelled as data, so
the log covers the two effectful provider calls.) -/
theorem C6_origin_marked_first (e : Engine) (o : Coord) (r : Nat) (m : MapProvider) :
    (computeLos e o r m).events.head? = some (PEvent.mark o) := by
  obtain ⟨t1, h1, -⟩ := sweepState_events m o r
    (if r > e.max_view_range then (fun _ => CellData.default) else e.cache)
  obtain ⟨t2, h2, -⟩ := foldl_emitStep_events m (windowOffsets r)
    (sweepState m o r (if r > e.max_view_range then (fun _ => CellData.default) else e.cache))
  rw [computeLos_events]
  unfold emitVisible
  rw [h2, h1, List.append_assoc]
  rfl

/-! ## C7 — reset and reuse -/

/-- C7: every scratch cell is back to the default state when `compute`
returns, and consequently two consecutive compute calls with identical
origin, radius and provider on the same engine instance produce identical
visibility reports. -/
theorem C7_reset_and_reuse (e : Engine) (o : Coord) (r : Nat) (m : MapProvider) :
    (computeLos e o r m).engine.cache = defaultCache ∧
    (e.cache = defaultCache →
      losMarks (computeLos (computeLos e o r m).engine o r m) =
        losMarks (computeLos e o r m)) := by
  refine ⟨rfl, fun h => ?_⟩
  unfold losMarks
  rw [computeLos_events_default _ o r m rfl, computeLos_events_default e o r m h]

/-- Witness for C7 on a concrete engine and host. -/
theorem C7_witness :
    losMarks (computeLos (computeLos (freshEngine 2) ⟨1, 1⟩ 2 (openMap ⟨2, 2⟩)).engine
        ⟨1, 1⟩ 2 (openMap ⟨2, 2⟩)) =
      losMarks (computeLos (freshEngine 2) ⟨1, 1⟩ 2 (openMap ⟨2, 2⟩)) :=
  (C7_reset_and_reuse (freshEngine 2) ⟨1, 1⟩ 2 (openMap ⟨2, 2⟩)).2 rfl

/-! ## C10 — the origin mark precedes bounds filtering; all other marks are
in bounds -/

/-- C10: the first visibility mark of every compute call is the origin —
issued before any bounds filtering, hence also when the origin lies outside
the provider's bounds — and every other `mark_as_visible` call targets a
coordinate inside the provider's inclusive bounds. -/
theorem C10_origin_unfiltered_rest_bounded (e : Engine) (o : Coord) (r : Nat)
    (m : MapProvider) :
    (losMarks (computeLos e o r m)).head? = some o ∧
    ∀ c ∈ (losMarks (computeLos e o r m)).tail, is_in_bounds c m = true := by
  obtain ⟨t1, h1, hm1⟩ := sweepState_events m o r
    (if r > e.max_view_range then (fun _ => CellData.default) else e.cache)
  obtain ⟨t2, h2, hb2⟩ := foldl_emitStep_events m (windowOffsets r)
    (sweepState m o r (if r > e.max_view_range then (fun _ => CellData.default) else e.cache))
  have hev : (computeLos e o r m).events = [PEvent.mark o] ++ t1 ++ t2 := by
    rw [computeLos_events]
    unfold emitVisible
    rw [h2, h1]
  have hmk : losMarks (computeLos e o r m) = o :: marksOf t2 := by
    unfold losMarks
    rw [hev, marksOf_append, marksOf_append, hm1]
    rfl
  rw [hmk]
  exact ⟨rfl, fun c hc => hb2 c hc⟩

set_option maxRecDepth 8000 in
/-- Witness for C10: one run whose origin `(9,9)` lies outside the 3×3 host
bounds still marks the origin first, and on an in-bounds run a concrete
non-origin mark is inside the host bounds. -/
theorem C10_witness :
    (losMarks (computeLos (freshEngine 2) ⟨9, 9⟩ 2 (openMap ⟨2, 2⟩))).head? = some ⟨9, 9⟩ ∧
    is_in_bounds ⟨0, 0⟩ (openMap ⟨2, 2⟩) = true :=
  ⟨(C10_origin_unfiltered_rest_bounded (freshEngine 2) ⟨9, 9⟩ 2 (openMap ⟨2, 2⟩)).1,
   (C10_origin_unfiltered_rest_bounded (freshEngine 2) ⟨1, 1⟩ 2 (openMap ⟨2, 2⟩)).2
     ⟨0, 0⟩ (by decide)⟩

/-! ## Infrastructure: the wall-origin invariant -/

/-- If the cell produced by the per-cell apply-ray step is not ignored and
the underlying map cell is blocking, the step has made it a wall origin. -/
theorem applyRayCell_wall (m : MapProvider) (origin offset input : Coord)
    (input_data self_data : CellData)
    (hi : ((applyRayCell m origin offset input input_data self_data).1).ignore = false)
    (hb : m.is_blocking (origin + offset) = true) :
    ((applyRayCell m origin offset input input_data self_data).1).obs
      = ⟨|offset.x|, |offset.y|⟩ ∧
    ((applyRayCell m origin offset input input_data self_data).1).err
      = ((applyRayCell m origin offset input input_data self_data).1).obs := by
  cases hig : (!(applyRayObs offset input input_data self_data).visited ||
      (applyRayObs offset input input_data self_data).ignore) &&
      input_data.is_obstacle with
  | false => constructor <;> simp [applyRayCell, hig, hb]
  | true =>
      exfalso
      simp only [applyRayCell, hig] at hi
      simp at hi

theorem applyRay_wallInv (m : MapProvider) (st : RunState) (offset input : Coord)
    (h : wallInv m st) : wallInv m (applyRay m st offset input) := by
  unfold applyRay
  split
  · exact h
  intro c hv hi hb
  dsimp only at hv hi hb ⊢
  by_cases hc : c = offset
  · subst hc
    rw [if_pos rfl] at hv hi ⊢
    exact applyRayCell_wall m st.origin c input _ _ hi hb
  · rw [if_neg hc] at hv hi ⊢
    exact h c hv hi hb

theorem cond_applyRay_wallInv (m : MapProvider) (c : Prop) [Decidable c]
    (st : RunState) (o i : Coord) (h : wallInv m st) :
    wallInv m (if c then applyRay m st o i else st) := by
  split
  · exact applyRay_wallInv m st o i h
  · exact h

theorem propagateFrom_wallInv (m : MapProvider) (st : RunState) (s : Coord)
    (h : wallInv m st) : wallInv m (propagateFrom m st s) := by
  unfold propagateFrom
  split
  · exact h
  split
  · exact h
  exact cond_applyRay_wallInv m _ _ _ _
    (cond_applyRay_wallInv m _ _ _ _
      (cond_applyRay_wallInv m _ _ _ _
        (cond_applyRay_wallInv m _ _ _ _ h)))

theorem foldl_propagateFrom_wallInv (m : MapProvider) (l : List Coord) (st : RunState)
    (h : wallInv m st) : wallInv m (l.foldl (propagateFrom m) st) := by
  induction l generalizing st with
  | nil => exact h
  | cons a tl ih =>
      rw [List.foldl_cons]
      exact ih (propagateFrom m st a) (propagateFrom_wallInv m st a h)

theorem seedState_wallInv (m : MapProvider) (o : Coord) :
    wallInv m (seedState m o defaultCache) := by
  unfold seedState
  apply propagateFrom_wallInv
  intro c hv hi hb
  dsimp only at hv hi hb ⊢
  by_cases hc : c = (⟨0, 0⟩ : Coord)
  · subst hc
    rw [if_pos rfl] at hv hi ⊢
    exact ⟨by decide, by decide⟩
  · rw [if_neg hc] at hv
    simp [defaultCache, CellData.default] at hv

theorem sweepState_wallInv (m : MapProvider) (o : Coord) (r : Nat) :
    wallInv m (sweepState m o r defaultCache) := by
  unfold sweepState
  exact foldl_propagateFrom_wallInv m (sweepSources r) _ (seedState_wallInv m o)

/-- The emission window contains every offset whose two components are at
most the radius in absolute value. -/
theorem mem_windowOffsets (r : Nat) (c : Coord) (hx : c.x.natAbs ≤ r)
    (hy : c.y.natAbs ≤ r) : c ∈ windowOffsets r := by
  unfold windowOffsets
  apply List.mem_flatMap.mpr
  refine ⟨(c.y + r).toNat, ?_, ?_⟩
  · simp only [List.mem_range]
    omega
  apply List.mem_map.mpr
  refine ⟨(c.x + r).toNat, ?_, ?_⟩
  · simp only [List.mem_range]
    omega
  rw [Coord.eq_iff]
  constructor
  · show ((c.x + (r : Int)).toNat : Int) - r = c.x
    omega
  · show ((c.y + (r : Int)).toNat : Int) - r = c.y
    omega

/-- The emission scan marks every in-window, in-bounds offset whose scratch
cell classifies visible. -/
theorem foldl_emitStep_mark_mem (m : MapProvider) (l : List Coord) :
    ∀ (st : RunState) (c : Coord), c ∈ l →
      is_in_bounds (c + st.origin) m = true →
      (st.cache c).is_visible = true →
      PEvent.mark (c + st.origin) ∈ (l.foldl (emitStep m) st).events := by
  induction l with
  | nil =>
      intro st c hc
      cases hc
  | cons a tl ih =>
      intro st c hc hb hv
      rw [List.foldl_cons]
      rcases List.mem_cons.mp hc with rfl | h
      · have hmem : PEvent.mark (c + st.origin) ∈ (emitStep m st c).events := by
          unfold emitStep
          dsimp only
          rw [hb, if_neg (by simp), hv, if_pos rfl]
          exact List.mem_append_right _ (List.mem_singleton.mpr rfl)
        obtain ⟨t, ht, -⟩ := foldl_emitStep_events m tl (emitStep m st c)
        rw [ht]
        exact List.mem_append_left _ hmem
      · have horig := emitStep_origin m st a
        have hcache := emitStep_cache m st a
        have h2 := ih (emitStep m st a) c h (by rw [horig]; exact hb)
          (by rw [hcache]; exact hv)
        rw [horig] at h2
        exact h2

/-! ## C8 — wall self-visibility -/

/-- C8: any blocking cell the sweep reaches (its scratch cell is visited and
not ignored at the end of the sweep) is a wall origin —
`obstruction = (|dx|,|dy|)` with `errorTerm = obstruction` — and is
classified visible at emission; if it moreover lies in the emission window
and inside the host bounds, the provider receives its visibility mark. -/
theorem C8_wall_self_visibility (e : Engine) (o : Coord) (r : Nat) (m : MapProvider)
    (c : Coord)
    (hcache : e.cache = defaultCache)
    (hv : ((sweepState m o r defaultCache).cache c).visited = true)
    (hi : ((sweepState m o r defaultCache).cache c).ignore = false)
    (hb : m.is_blocking (o + c) = true) :
    ((sweepState m o r defaultCache).cache c).obs = ⟨|c.x|, |c.y|⟩ ∧
    ((sweepState m o r defaultCache).cache c).is_visible = true ∧
    (c.x.natAbs ≤ r → c.y.natAbs ≤ r → is_in_bounds (c + o) m = true →
      PEvent.mark (c + o) ∈ (computeLos e o r m).events) := by
  have horig : (sweepState m o r defaultCache).origin = o :=
    sweepState_origin m o r defaultCache
  have hob := sweepState_wallInv m o r c hv hi (by rw [horig]; exact hb)
  refine ⟨hob.1, visible_of_wall _ hv hi hob.2, fun hx hy hbb => ?_⟩
  rw [computeLos_events_default e o r m hcache]
  unfold emitVisible
  have hm := foldl_emitStep_mark_mem m (windowOffsets r) (sweepState m o r defaultCache)
    c (mem_windowOffsets r c hx hy) (by rw [horig]; exact hbb)
    (visible_of_wall _ hv hi hob.2)
  rw [horig] at hm
  exact hm

set_option maxRecDepth 8000 in
/-- Witness for C8: wall at `(2,1)` on a 3×3 host, origin `(1,1)`,
radius 2 — the wall's scratch cell at offset `(1,0)` is visible and the wall
itself is reported visible. -/
theorem C8_witness :
    ((sweepState (wallAt ⟨2, 1⟩ ⟨2, 2⟩) ⟨1, 1⟩ 2 defaultCache).cache ⟨1, 0⟩).is_visible
      = true ∧
    PEvent.mark ((⟨1, 0⟩ : Coord) + ⟨1, 1⟩) ∈
      (computeLos (freshEngine 2) ⟨1, 1⟩ 2 (wallAt ⟨2, 1⟩ ⟨2, 2⟩)).events := by
  have h := C8_wall_self_visibility (freshEngine 2) ⟨1, 1⟩ 2 (wallAt ⟨2, 1⟩ ⟨2, 2⟩)
    ⟨1, 0⟩ rfl (by decide) (by decide) (by decide)
  exact ⟨h.2.1, h.2.2 (by decide) (by decide) (by decide)⟩
